import Mathlib

/-!
Verification development for the moltbot-scraper orchestration layer
(`src/moltbot_client.py`, `src/moltbot_scraper.py`, `src/models.py`).

Conventions of the embedding:
* Python strings are modelled as `List Char`; `Optional[str]` as
  `Option (List Char)`; Python truthiness of a string is non-emptiness.
* Stateful code is modelled by explicit state records and step functions.
* Fallible code returns `Option` / `Except`.
* Floating-point metadata (`load_time_seconds`) is not modelled; no claim
  depends on it.
-/

namespace Moltbot

/-- Enum `models.PaginationType`. -/
inductive PaginationType where
  | nextPage
  | infiniteScroll
  | loadMore
  | numbered
  | none
  | unknown
deriving DecidableEq

/-- Enum `models.SecurityIssue`. -/
inductive SecurityIssue where
  | cloudflare
  | captcha
  | botProtection
  | blocked
  | timeout
  | none
deriving DecidableEq

/-- Dataclass `models.SiteAnalysis` (the float field `load_time_seconds`
is omitted; it carries timing metadata only). -/
structure SiteAnalysis where
  url : List Char := []
  domain : List Char := []
  is_ecommerce : Bool := false
  listing_urls : List (List Char) := []
  product_urls : List (List Char) := []
  has_product_pages : Bool := false
  estimated_total_pages : Nat := 0
  estimated_total_products : Nat := 0
  pagination_type : PaginationType := PaginationType.unknown
  security_issues : List SecurityIssue := []
  error_message : Option (List Char) := Option.none
  page_title : List Char := []
deriving DecidableEq

/-- Python truthiness of an `Optional[str]`: `None` and `""` are falsy. -/
def pyTruthyOptStr : Option (List Char) → Bool
  | Option.none => false
  | Option.some s => !s.isEmpty

/-- `MoltBotScraper._should_retry` (src/moltbot_scraper.py lines 360-372):
`has_no_data and (has_security_issues or has_error)` where
`has_security_issues = bool(security_issues and any(s != NONE))` and
`has_error = bool(error_message)`. -/
def shouldRetry (a : SiteAnalysis) : Bool :=
  (a.listing_urls.isEmpty && a.product_urls.isEmpty) &&
    ((!a.security_issues.isEmpty &&
        a.security_issues.any (fun s => s != SecurityIssue.none)) ||
      pyTruthyOptStr a.error_message)

/-- Which prompt template an agent invocation uses: `ANALYSIS_PROMPT`
for the first pass, `RETRY_PROMPT` for the single retry. -/
inductive PromptKind where
  | firstPass
  | retryPass
deriving DecidableEq

/-- The sequence of agent invocations `MoltBotScraper.analyze_site`
performs (src/moltbot_scraper.py lines 295-315 and `_retry_site`
lines 331-358), as a log of (session key, prompt template) pairs: one
first-pass invocation, then one retry on the same `session_key` when
`_should_retry` holds; the control flow is straight-line, so no further
invocation can follow. -/
def analyzeSiteInvocations (sessionKey : List Char) (first : SiteAnalysis) :
    List (List Char × PromptKind) :=
  if shouldRetry first then
    [(sessionKey, PromptKind.firstPass), (sessionKey, PromptKind.retryPass)]
  else [(sessionKey, PromptKind.firstPass)]

/-- Extracted-entry count of an analysis: `len(listing_urls) + len(product_urls)`,
the score used by `_merge_analyses`. -/
def entryCount (a : SiteAnalysis) : Nat :=
  a.listing_urls.length + a.product_urls.length

/-- `MoltBotScraper._merge_analyses` (src/moltbot_scraper.py lines 374-391):
keep the attempt with the larger score (`retry` only on a strictly larger
score), overwrite its `security_issues` with the union of both attempts'
issues minus the `NONE` sentinel (the Python `set` is modelled by
`dedup` of the concatenation; theorems below only use membership), and
clear `error_message` when the retry scored. -/
def mergeAnalyses (first retryA : SiteAnalysis) : SiteAnalysis :=
  let firstScore := entryCount first
  let retryScore := entryCount retryA
  let best := if firstScore < retryScore then retryA else first
  let allIssues :=
    ((first.security_issues ++ retryA.security_issues).filter
      (fun s => s != SecurityIssue.none)).dedup
  let best' := { best with security_issues := allIssues }
  if 0 < retryScore then { best' with error_message := Option.none } else best'

/-- `MoltBotScraper.analyze_site`'s result combination: the merged result
when a retry was triggered, otherwise the first attempt unchanged. -/
def analyzeSiteCombined (first retryA : SiteAnalysis) : SiteAnalysis :=
  if shouldRetry first then mergeAnalyses first retryA else first

/-- C3: single-target analysis issues a retry exactly when the first-pass
result has empty listing and product URL collections and carries a
non-`NONE` security indicator or a (non-empty) error message; when
triggered, exactly one retry runs, on the same session key with the retry
prompt, and no invocation ever follows the retry. -/
theorem retry_policy_spec (sessionKey : List Char) (first : SiteAnalysis) :
    (shouldRetry first = true ↔
      (first.listing_urls = [] ∧ first.product_urls = [] ∧
        ((∃ s ∈ first.security_issues, s ≠ SecurityIssue.none) ∨
          (∃ m, first.error_message = Option.some m ∧ m ≠ [])))) ∧
    (analyzeSiteInvocations sessionKey first).length ≤ 2 ∧
    (shouldRetry first = true →
      analyzeSiteInvocations sessionKey first =
        [(sessionKey, PromptKind.firstPass), (sessionKey, PromptKind.retryPass)]) ∧
    (shouldRetry first = false →
      analyzeSiteInvocations sessionKey first = [(sessionKey, PromptKind.firstPass)]) := by
  refine ⟨?_, ?_, ?_, ?_⟩
  · unfold shouldRetry pyTruthyOptStr
    cases hm : first.error_message with
    | none =>
      simp only [List.isEmpty_iff, List.any_eq_true, bne_iff_ne, Bool.and_eq_true,
        Bool.or_eq_true, Bool.not_eq_true', List.isEmpty_eq_false, ne_eq,
        decide_eq_true_eq, Option.some.injEq, reduceCtorEq, false_and,
        exists_false, or_false, exists_and_left]
      constructor
      · rintro ⟨⟨h1, h2⟩, -, s, hs, hne⟩
        exact ⟨h1, h2, s, hs, hne⟩
      · rintro ⟨h1, h2, s, hs, hne⟩
        exact ⟨⟨h1, h2⟩, fun h => by simp [h] at hs, s, hs, hne⟩
    | some m =>
      simp only [List.isEmpty_iff, List.any_eq_true, bne_iff_ne, Bool.and_eq_true,
        Bool.or_eq_true, Bool.not_eq_true', List.isEmpty_eq_false, ne_eq,
        decide_eq_true_eq, Option.some.injEq]
      constructor
      · rintro ⟨⟨h1, h2⟩, ⟨-, s, hs, hne⟩ | hm'⟩
        · exact ⟨h1, h2, Or.inl ⟨s, hs, hne⟩⟩
        · exact ⟨h1, h2, Or.inr ⟨m, rfl, hm'⟩⟩
      · rintro ⟨h1, h2, ⟨s, hs, hne⟩ | ⟨m', hm', hne⟩⟩
        · exact ⟨⟨h1, h2⟩, Or.inl ⟨fun h => by simp [h] at hs, s, hs, hne⟩⟩
        · cases hm'
          exact ⟨⟨h1, h2⟩, Or.inr hne⟩
  · unfold analyzeSiteInvocations
    split <;> simp
  · intro h
    simp [analyzeSiteInvocations, h]
  · intro h
    simp [analyzeSiteInvocations, h]

/-- Witness for `retry_policy_spec` at a concrete blocked first attempt. -/
theorem retry_policy_spec_witness :
    (shouldRetry { security_issues := [SecurityIssue.blocked] } = true ↔
      (([] : List (List Char)) = [] ∧ ([] : List (List Char)) = [] ∧
        ((∃ s ∈ [SecurityIssue.blocked], s ≠ SecurityIssue.none) ∨
          (∃ m, (Option.none : Option (List Char)) = Option.some m ∧ m ≠ [])))) ∧
    analyzeSiteInvocations [] { security_issues := [SecurityIssue.blocked] } =
      [(([] : List Char), PromptKind.firstPass), (([] : List Char), PromptKind.retryPass)] := by
  refine ⟨(retry_policy_spec [] { security_issues := [SecurityIssue.blocked] }).1, ?_⟩
  exact (retry_policy_spec [] { security_issues := [SecurityIssue.blocked] }).2.2.1 (by decide)

/-- A first attempt that extracted one listing URL but also recorded an
error message: input showing that `_merge_analyses` does not clear the
error of a kept first attempt that produced entries. -/
def mergeFirstCex : SiteAnalysis :=
  { listing_urls := [['u']], error_message := Option.some ['e'] }

/-- A retry attempt that extracted nothing. -/
def mergeRetryCex : SiteAnalysis := {}

/-- C4 counterexample: merging a first attempt that produced one entry
(and carries an error message) with an empty retry keeps the first
attempt — whose entry count is positive — yet leaves its error message
in place, because the code keys the clearing on the retry's score, not
on the kept attempt's. -/
theorem merge_error_clear_cex :
    0 < entryCount (mergeAnalyses mergeFirstCex mergeRetryCex) ∧
    (mergeAnalyses mergeFirstCex mergeRetryCex).error_message = Option.some ['e'] := by
  decide

/-- C4 (amended): the merge keeps whichever attempt has the larger entry
count (the first on ties), sets the kept result's security issues to the
union of both attempts' indicators with the `NONE` sentinel removed, and
clears the kept result's error message exactly when the retry attempt
produced entries. -/
theorem merge_analyses_spec (f r : SiteAnalysis) :
    ((mergeAnalyses f r).listing_urls =
      (if entryCount f < entryCount r then r else f).listing_urls) ∧
    ((mergeAnalyses f r).product_urls =
      (if entryCount f < entryCount r then r else f).product_urls) ∧
    ((mergeAnalyses f r).url = (if entryCount f < entryCount r then r else f).url) ∧
    ((mergeAnalyses f r).domain = (if entryCount f < entryCount r then r else f).domain) ∧
    (∀ s, s ∈ (mergeAnalyses f r).security_issues ↔
      ((s ∈ f.security_issues ∨ s ∈ r.security_issues) ∧ s ≠ SecurityIssue.none)) ∧
    ((mergeAnalyses f r).error_message =
      if 0 < entryCount r then Option.none
      else (if entryCount f < entryCount r then r else f).error_message) := by
  unfold mergeAnalyses
  by_cases hs : entryCount f < entryCount r <;>
    by_cases hr : 0 < entryCount r <;>
      simp [hs, hr, List.mem_dedup, List.mem_filter, List.mem_append, bne_iff_ne,
        and_comm] <;>
      intro s <;> tauto

/-- Python `str.strip()` whitespace set (`\s` of the `re` module agrees). -/
def isPySpace (c : Char) : Bool :=
  c == ' ' || c == '\t' || c == '\n' || c == '\r' ||
    c == Char.ofNat 11 || c == Char.ofNat 12

/-- Python `str.strip()`: drop leading and trailing whitespace. -/
def pyStrip (s : List Char) : List Char :=
  ((s.dropWhile isPySpace).reverse.dropWhile isPySpace).reverse

/-- Python `pattern in s` (substring containment). -/
def containsSub (pat : List Char) : List Char → Bool
  | [] => pat.isEmpty
  | c :: rest => pat.isPrefixOf (c :: rest) || containsSub pat rest

/-- Lowercase every character (`str.lower()` restricted to the ASCII
URLs the scraper handles). -/
def toLowerList (s : List Char) : List Char := s.map Char.toLower

/-- Characters `urllib.parse` accepts inside a scheme. -/
def isSchemeChar (c : Char) : Bool :=
  c.isAlphanum || c == '+' || c == '-' || c == '.'

/-- The part of a URL after its scheme separator, per
`urllib.parse.urlparse`: if the text before the first ':' is a valid
scheme (a letter followed by letters, digits, '+', '-' or '.'), drop it
and the colon, otherwise return the URL unchanged. -/
def afterScheme (url : List Char) : List Char :=
  let pre := url.takeWhile (fun c => c != ':')
  if pre.length < url.length && !pre.isEmpty && pre.all isSchemeChar &&
      (match pre with
        | c :: _ => c.isAlpha
        | [] => false) then
    url.drop (pre.length + 1)
  else url

/-- `urlparse(url).netloc`: present only when "//" follows the scheme,
running up to the next '/', '?' or '#'. Modelled for the absolute
http(s)-style URLs the scraper handles (`;`-params and user-info splits
are not modelled; no claim input uses them). -/
def urlNetloc (url : List Char) : List Char :=
  let rest := afterScheme url
  if ['/', '/'].isPrefixOf rest then
    (rest.drop 2).takeWhile (fun c => c != '/' && c != '?' && c != '#')
  else []

/-- `urlparse(url).path` under the same modelling as `urlNetloc`. -/
def urlPath (url : List Char) : List Char :=
  let rest := afterScheme url
  if ['/', '/'].isPrefixOf rest then
    ((rest.drop 2).dropWhile (fun c => c != '/' && c != '?' && c != '#')).takeWhile
      (fun c => c != '?' && c != '#')
  else rest.takeWhile (fun c => c != '?' && c != '#')

/-- The words of the case-insensitive `_JUNK_URL_PATTERNS` regex
(src/moltbot_scraper.py lines 34-37) that are plain substring matches. -/
def junkSubstrings : List (List Char) :=
  ["sitemap.xml".toList, "robots.txt".toList, "favicon.ico".toList,
    ".css".toList, ".png".toList, ".jpg".toList, ".svg".toList]

/-- `_JUNK_URL_PATTERNS.search(url)`: one of the junk substrings occurs
in the lowercased URL, or ".js" occurs followed by '?' or at the end
(the `\.js(\?|$)` alternative). -/
def hasJunkPattern (url : List Char) : Bool :=
  let l := toLowerList url
  junkSubstrings.any (fun p => containsSub p l) ||
    containsSub (".js?".toList) l || (".js".toList).isSuffixOf l

set_option linter.unusedVariables false in
/-- `_is_junk_url` (src/moltbot_scraper.py lines 207-217): empty or
non-string values, junk-pattern matches, and bare homepages (empty or
"/" path) are junk. The `site_domain` parameter is unused, as in the
source. -/
def isJunkUrl (url : List Char) (siteDomain : List Char) : Bool :=
  if url.isEmpty then true
  else if hasJunkPattern url then true
  else
    let p := urlPath url
    p.isEmpty || p == ['/']

/-- Python `str.lstrip("www.")`: strip any leading characters drawn from
the set {'w', '.'} (note: a character set, not a prefix). -/
def lstripWwwDot (s : List Char) : List Char :=
  s.dropWhile (fun c => c == 'w' || c == '.')

/-- The domain-acceptance test of `_filter_urls` (lines 245-249): the
normalized URL host is empty, or the normalized site domain occurs in it
as a substring (`clean_site not in url_domain` skips the URL). -/
def domainAccepts (siteDomain url : List Char) : Bool :=
  let urlDomain := lstripWwwDot (toLowerList (urlNetloc url))
  let cleanSite := lstripWwwDot (toLowerList siteDomain)
  urlDomain.isEmpty || containsSub cleanSite urlDomain

/-- Loop body of `_filter_urls` (src/moltbot_scraper.py lines 228-253).
An input entry is `Option.none` when the Python value is not a `str`
(the `isinstance` guard). `seen` accumulates stripped URLs already
visited; `result` accumulates survivors in reverse. -/
def filterUrlsGo (siteDomain : List Char) :
    List (Option (List Char)) → List (List Char) → List (List Char) → List (List Char)
  | [], _, result => result.reverse
  | item :: rest, seen, result =>
    match item with
    | Option.none => filterUrlsGo siteDomain rest seen result
    | Option.some raw =>
      let url := pyStrip raw
      if url.isEmpty then filterUrlsGo siteDomain rest seen result
      else if seen.contains url then filterUrlsGo siteDomain rest seen result
      else if isJunkUrl url siteDomain then filterUrlsGo siteDomain rest (url :: seen) result
      else if !domainAccepts siteDomain url then
        filterUrlsGo siteDomain rest (url :: seen) result
      else if 10 ≤ (url :: result).length then (url :: result).reverse
      else filterUrlsGo siteDomain rest (url :: seen) (url :: result)

/-- `_filter_urls(urls, site_domain, patterns)`; the `patterns` argument
is ignored by the source body, so it is omitted here. -/
def filterUrls (urls : List (Option (List Char))) (siteDomain : List Char) :
    List (List Char) :=
  filterUrlsGo siteDomain urls [] []

/-- The survivor predicate of the filter: not junk and domain-accepted. -/
def survives (siteDomain u : List Char) : Prop :=
  isJunkUrl u siteDomain = false ∧ domainAccepts siteDomain u = true

/-- Invariant induction over `filterUrlsGo`. -/
theorem filterUrlsGo_invariant (siteDomain : List Char) :
    ∀ (items : List (Option (List Char))) (seen result : List (List Char)),
      result.length < 10 → result.Nodup → (∀ u ∈ result, u ∈ seen) →
      (∀ u ∈ result, survives siteDomain u) →
      (filterUrlsGo siteDomain items seen result).length ≤ 10 ∧
      (filterUrlsGo siteDomain items seen result).Nodup ∧
      (filterUrlsGo siteDomain items seen result).Sublist
        (result.reverse ++ items.filterMap (fun o => o.map pyStrip)) ∧
      (∀ u ∈ filterUrlsGo siteDomain items seen result, survives siteDomain u) := by
  intro items
  induction items with
  | nil =>
    intro seen result hlen hnd hseen hgood
    refine ⟨?_, ?_, ?_, ?_⟩
    · simpa [filterUrlsGo] using Nat.le_of_lt hlen
    · simpa [filterUrlsGo] using hnd
    · simp [filterUrlsGo]
    · intro u hu
      exact hgood u (by simpa [filterUrlsGo] using hu)
  | cons item rest ih =>
    intro seen result hlen hnd hseen hgood
    have hskip : ∀ seen' : List (List Char), (∀ u ∈ result, u ∈ seen') →
        (filterUrlsGo siteDomain rest seen' result).length ≤ 10 ∧
        (filterUrlsGo siteDomain rest seen' result).Nodup ∧
        (filterUrlsGo siteDomain rest seen' result).Sublist
          (result.reverse ++ rest.filterMap (fun o => o.map pyStrip)) ∧
        (∀ u ∈ filterUrlsGo siteDomain rest seen' result, survives siteDomain u) :=
      fun seen' hseen' => ih seen' result hlen hnd hseen' hgood
    have hmono : ∀ l : List (List Char),
        l.Sublist (result.reverse ++ rest.filterMap (fun o => o.map pyStrip)) →
        l.Sublist (result.reverse ++
          ((item :: rest).filterMap (fun o => o.map pyStrip))) := by
      intro l hl
      cases item with
      | none => simpa using hl
      | some raw =>
        refine hl.trans ?_
        simp only [List.filterMap_cons, Option.map_some]
        exact (List.Sublist.refl _).append (List.sublist_cons_self _ _)
    cases item with
    | none =>
      have h := hskip seen hseen
      exact ⟨h.1, h.2.1, hmono _ h.2.2.1, h.2.2.2⟩
    | some raw =>
      show _ ∧ _ ∧ (filterUrlsGo siteDomain (Option.some raw :: rest) seen result).Sublist _ ∧ _
      rw [filterUrlsGo]
      by_cases hempty : (pyStrip raw).isEmpty
      · simp only [hempty, if_true]
        have h := hskip seen hseen
        exact ⟨h.1, h.2.1, hmono _ h.2.2.1, h.2.2.2⟩
      · by_cases hseenc : seen.contains (pyStrip raw)
        · simp only [hempty, hseenc, if_false, if_true]
          have h := hskip seen hseen
          exact ⟨h.1, h.2.1, hmono _ h.2.2.1, h.2.2.2⟩
        · by_cases hjunk : isJunkUrl (pyStrip raw) siteDomain
          · simp only [hempty, hseenc, hjunk, if_false, if_true]
            have h := hskip (pyStrip raw :: seen)
              (fun u hu => List.mem_cons_of_mem _ (hseen u hu))
            exact ⟨h.1, h.2.1, hmono _ h.2.2.1, h.2.2.2⟩
          · by_cases hdom : domainAccepts siteDomain (pyStrip raw)
            · simp only [hempty, hseenc, hjunk, hdom, Bool.not_true, if_false,
                Bool.false_eq_true]
              have hnotmem : pyStrip raw ∉ result := fun hmem =>
                hseenc (List.elem_eq_true_of_mem (hseen _ hmem))
              have hnd' : (pyStrip raw :: result).Nodup := by
                exact List.nodup_cons.mpr ⟨hnotmem, hnd⟩
              have hgood' : ∀ u ∈ pyStrip raw :: result, survives siteDomain u := by
                intro u hu
                rcases List.mem_cons.mp hu with h | h
                · subst h; exact ⟨by simpa using hjunk, hdom⟩
                · exact hgood u h
              by_cases hcap : 10 ≤ (pyStrip raw :: result).length
              · simp only [hcap, if_true]
                refine ⟨?_, ?_, ?_, ?_⟩
                · simp only [List.length_reverse, List.length_cons]
                  omega
                · exact List.nodup_reverse.mpr hnd'
                · simp only [List.reverse_cons, List.filterMap_cons, Option.map_some]
                  have : (result.reverse ++ [pyStrip raw]).Sublist
                      (result.reverse ++ pyStrip raw ::
                        rest.filterMap (fun o => o.map pyStrip)) := by
                    refine (List.Sublist.refl _).append ?_
                    exact (List.nil_sublist _).cons₂ (pyStrip raw)
                  exact this
                · intro u hu
                  exact hgood' u (List.mem_reverse.mp hu)
              · simp only [hcap, if_false]
                have hlen' : (pyStrip raw :: result).length < 10 := by
                  simp only [List.length_cons] at hcap ⊢
                  omega
                have hseen' : ∀ u ∈ pyStrip raw :: result, u ∈ pyStrip raw :: seen := by
                  intro u hu
                  rcases List.mem_cons.mp hu with h | h
                  · exact h ▸ List.mem_cons_self _ _
                  · exact List.mem_cons_of_mem _ (hseen u h)
                have h := ih (pyStrip raw :: seen) (pyStrip raw :: result)
                  hlen' hnd' hseen' hgood'
                refine ⟨h.1, h.2.1, ?_, h.2.2.2⟩
                refine h.2.2.1.trans ?_
                simp only [List.reverse_cons, List.filterMap_cons, Option.map_some,
                  List.append_assoc, List.singleton_append]
                exact List.Sublist.refl _
            · simp only [hempty, hseenc, hjunk, hdom, Bool.not_false, if_true,
                Bool.false_eq_true, if_false]
              have h := hskip (pyStrip raw :: seen)
                (fun u hu => List.mem_cons_of_mem _ (hseen u hu))
              exact ⟨h.1, h.2.1, hmono _ h.2.2.1, h.2.2.2⟩

/-- The target site of the C5 counterexample. -/
def cexSite : List Char := "example.com".toList

/-- A URL on an unrelated host that merely contains the site domain as a
substring. -/
def cexUrl : List Char := "https://notexample.com/shop/items".toList

/-- C5 counterexample: `_filter_urls` keeps
`https://notexample.com/shop/items` for target site `example.com`
although its host `notexample.com` is a different domain, because the
code tests `clean_site in url_domain` (substring containment), not
domain equality or a dot-boundary suffix. -/
theorem filter_urls_cross_domain_cex :
    filterUrls [Option.some cexUrl] cexSite = [cexUrl] ∧
    urlNetloc cexUrl = "notexample.com".toList ∧
    urlNetloc cexUrl ≠ cexSite ∧
    ¬ (('.' :: cexSite).isSuffixOf (urlNetloc cexUrl)) := by
  decide

/-- C5 (amended): URL filtering drops non-string, empty and duplicate
entries, rejects junk URLs (asset patterns, bare homepages) via
`_is_junk_url`, rejects URLs whose normalized host is non-empty and does
not contain the normalized target domain as a substring, caps the output
at 10 entries, and preserves first-seen order of survivors (the output
is a sublist of the stripped string inputs, without duplicates). -/
theorem filter_urls_spec (urls : List (Option (List Char))) (siteDomain : List Char) :
    (filterUrls urls siteDomain).length ≤ 10 ∧
    (filterUrls urls siteDomain).Nodup ∧
    (filterUrls urls siteDomain).Sublist
      (urls.filterMap (fun o => o.map pyStrip)) ∧
    (∀ u ∈ filterUrls urls siteDomain,
      isJunkUrl u siteDomain = false ∧ domainAccepts siteDomain u = true) := by
  have h := filterUrlsGo_invariant siteDomain urls [] []
    (by simp) (by simp) (by simp) (by simp)
  exact ⟨h.1, h.2.1, by simpa using h.2.2.1, h.2.2.2⟩

/-- Witness for `filter_urls_spec`: evaluating the filter on a concrete
mixed input list. -/
theorem filter_urls_spec_witness :
    (filterUrls [Option.some ("https://example.com/shop/a".toList),
        Option.none, Option.some ("https://example.com/".toList)]
      ("example.com".toList)).length ≤ 10 ∧
    isJunkUrl ("https://example.com/shop/a".toList) ("example.com".toList) = false := by
  refine ⟨(filter_urls_spec _ _).1, ?_⟩
  have h := (filter_urls_spec [Option.some ("https://example.com/shop/a".toList),
      Option.none, Option.some ("https://example.com/".toList)]
    ("example.com".toList)).2.2.2 ("https://example.com/shop/a".toList) (by decide)
  exact h.1

/-- JSON values as produced by `json.loads`. Numbers are modelled as
integers: the structured answers the scraper consumes use integer
numerals, and a fractional or exponent numeral makes this model's parser
fail instead of producing a value. A Python dict is modelled as its
ordered field list. -/
inductive Json where
  | null
  | bool (b : Bool)
  | num (n : Int)
  | str (s : List Char)
  | arr (elems : List Json)
  | obj (fields : List (List Char × Json))

/-- JSON insignificant whitespace (space, tab, newline, carriage return). -/
def isJsonWs (c : Char) : Bool :=
  c == ' ' || c == '\t' || c == '\n' || c == '\r'

/-- Hexadecimal digit test for `\uXXXX` escapes. -/
def isHexDigitChar (c : Char) : Bool :=
  c.isDigit || ('a' ≤ c && c ≤ 'f') || ('A' ≤ c && c ≤ 'F')

/-- Value of a hexadecimal digit. -/
def hexVal (c : Char) : Nat :=
  if c.isDigit then c.toNat - 48
  else if 'a' ≤ c then c.toNat - 87
  else c.toNat - 55

/-- Body of a JSON string after its opening quote: returns the decoded
characters and the remainder after the closing quote. Strict mode as in
`json.loads`: raw control characters are rejected; `\uXXXX` escapes are
decoded without surrogate pairing. -/
def parseStringBody (fuel : Nat) (input : List Char) (acc : List Char) :
    Option (List Char × List Char) :=
  match fuel with
  | 0 => Option.none
  | Nat.succ fuel =>
    match input with
    | [] => Option.none
    | c :: rest =>
      if c == '"' then Option.some (acc.reverse, rest)
      else if c == '\\' then
        match rest with
        | [] => Option.none
        | e :: rest2 =>
          if e == '"' then parseStringBody fuel rest2 ('"' :: acc)
          else if e == '\\' then parseStringBody fuel rest2 ('\\' :: acc)
          else if e == '/' then parseStringBody fuel rest2 ('/' :: acc)
          else if e == 'b' then parseStringBody fuel rest2 (Char.ofNat 8 :: acc)
          else if e == 'f' then parseStringBody fuel rest2 (Char.ofNat 12 :: acc)
          else if e == 'n' then parseStringBody fuel rest2 ('\n' :: acc)
          else if e == 'r' then parseStringBody fuel rest2 ('\r' :: acc)
          else if e == 't' then parseStringBody fuel rest2 ('\t' :: acc)
          else if e == 'u' then
            match rest2 with
            | h1 :: h2 :: h3 :: h4 :: rest3 =>
              if isHexDigitChar h1 && isHexDigitChar h2 &&
                  isHexDigitChar h3 && isHexDigitChar h4 then
                parseStringBody fuel rest3
                  (Char.ofNat
                    (((hexVal h1 * 16 + hexVal h2) * 16 + hexVal h3) * 16 + hexVal h4)
                    :: acc)
              else Option.none
            | _ => Option.none
          else Option.none
      else if c.toNat < 32 then Option.none
      else parseStringBody fuel rest (c :: acc)

/-- Decimal digits to a natural number. -/
def digitsToNat : List Char → Nat → Nat
  | [], acc => acc
  | c :: rest, acc => digitsToNat rest (acc * 10 + (c.toNat - 48))

/-- An integer numeral at the head of the input, per the JSON grammar
(optional minus, no leading zeros). A following '.', 'e' or 'E' marks a
float numeral, which this model rejects. -/
def parseIntLit (s : List Char) : Option (Json × List Char) :=
  let negAndBody :=
    match s with
    | c :: rest => if c == '-' then (true, rest) else (false, s)
    | [] => (false, s)
  let ds := negAndBody.2.takeWhile Char.isDigit
  let rest := negAndBody.2.dropWhile Char.isDigit
  if ds.isEmpty then Option.none
  else if 1 < ds.length && ds.headD ' ' == '0' then Option.none
  else
    let n : Int := digitsToNat ds 0
    let v := Json.num (if negAndBody.1 then -n else n)
    match rest with
    | c :: _ =>
      if c == '.' || c == 'e' || c == 'E' then Option.none else Option.some (v, rest)
    | [] => Option.some (v, [])

/-- The recursion states of the descent parser: a value, an object body
(after '{'), an object member list, an array body (after '['), or an
array element list. -/
inductive ParseTask where
  | value (input : List Char)
  | objBody (input : List Char)
  | objMembers (input : List Char) (acc : List (List Char × Json))
  | arrBody (input : List Char)
  | arrElems (input : List Char) (acc : List Json)

/-- Fuel-driven recursive-descent parser modelling `json.loads`' grammar
on a `List Char`; returns the parsed value and the unread remainder.
Written as a single function structurally recursive on the fuel so that
it evaluates by kernel reduction. -/
def parseRun : Nat → ParseTask → Option (Json × List Char)
  | 0, _ => Option.none
  | Nat.succ fuel, task =>
    match task with
    | ParseTask.value input =>
      match input.dropWhile isJsonWs with
      | [] => Option.none
      | c :: rest =>
        if c == '{' then parseRun fuel (ParseTask.objBody rest)
        else if c == '[' then parseRun fuel (ParseTask.arrBody rest)
        else if c == '"' then
          match parseStringBody (rest.length + 1) rest [] with
          | Option.some sr => Option.some (Json.str sr.1, sr.2)
          | Option.none => Option.none
        else if c == 'n' then
          if ['u', 'l', 'l'].isPrefixOf rest then Option.some (Json.null, rest.drop 3)
          else Option.none
        else if c == 't' then
          if ['r', 'u', 'e'].isPrefixOf rest then
            Option.some (Json.bool true, rest.drop 3)
          else Option.none
        else if c == 'f' then
          if ['a', 'l', 's', 'e'].isPrefixOf rest then
            Option.some (Json.bool false, rest.drop 4)
          else Option.none
        else if c == '-' || c.isDigit then parseIntLit (c :: rest)
        else Option.none
    | ParseTask.objBody input =>
      match input.dropWhile isJsonWs with
      | [] => Option.none
      | c :: rest =>
        if c == '}' then Option.some (Json.obj [], rest)
        else parseRun fuel (ParseTask.objMembers (c :: rest) [])
    | ParseTask.objMembers input acc =>
      match input.dropWhile isJsonWs with
      | [] => Option.none
      | c :: rest =>
        if c == '"' then
          match parseStringBody (rest.length + 1) rest [] with
          | Option.none => Option.none
          | Option.some kr =>
            match kr.2.dropWhile isJsonWs with
            | [] => Option.none
            | c2 :: rest2 =>
              if c2 == ':' then
                match parseRun fuel (ParseTask.value rest2) with
                | Option.none => Option.none
                | Option.some vr =>
                  match vr.2.dropWhile isJsonWs with
                  | [] => Option.none
                  | c3 :: rest3 =>
                    if c3 == ',' then
                      parseRun fuel (ParseTask.objMembers rest3 (acc ++ [(kr.1, vr.1)]))
                    else if c3 == '}' then
                      Option.some (Json.obj (acc ++ [(kr.1, vr.1)]), rest3)
                    else Option.none
              else Option.none
        else Option.none
    | ParseTask.arrBody input =>
      match input.dropWhile isJsonWs with
      | [] => Option.none
      | c :: rest =>
        if c == ']' then Option.some (Json.arr [], rest)
        else parseRun fuel (ParseTask.arrElems (c :: rest) [])
    | ParseTask.arrElems input acc =>
      match parseRun fuel (ParseTask.value input) with
      | Option.none => Option.none
      | Option.some vr =>
        match vr.2.dropWhile isJsonWs with
        | [] => Option.none
        | c :: rest =>
          if c == ',' then parseRun fuel (ParseTask.arrElems rest (acc ++ [vr.1]))
          else if c == ']' then Option.some (Json.arr (acc ++ [vr.1]), rest)
          else Option.none

/-- `json.loads(s)`: parse one value, then require that only whitespace
remains (`json.loads` rejects trailing data). The fuel `4 * length + 8`
dominates the recursion depth of any input. -/
def jsonParse (s : List Char) : Option Json :=
  match parseRun (4 * s.length + 8) (ParseTask.value s) with
  | Option.some vr =>
    if (vr.2.dropWhile isJsonWs).isEmpty then Option.some vr.1 else Option.none
  | Option.none => Option.none

/-- A backtick character (0x60). -/
def btick : Char := Char.ofNat 96

/-- The triple-backtick fence marker. -/
def fenceMarker : List Char := [btick, btick, btick]

/-- First index at or after the running index where `pat` occurs in the
remaining list. -/
def findSubAux (pat : List Char) : List Char → Nat → Option Nat
  | [], i => if pat.isEmpty then Option.some i else Option.none
  | c :: rest, i =>
    if pat.isPrefixOf (c :: rest) then Option.some i else findSubAux pat rest (i + 1)

/-- First index where `pat` occurs in `s` (Python `s.find(pat)`). -/
def findSub (pat s : List Char) : Option Nat := findSubAux pat s 0

/-- `s.find(c, start)` for a single character. -/
def findCharFrom (c : Char) (s : List Char) (start : Nat) : Option Nat :=
  match (s.drop start).findIdx? (fun x => x == c) with
  | Option.some j => Option.some (start + j)
  | Option.none => Option.none

/-- Python slice `l[a:b]`. -/
def slicePy (l : List Char) (a b : Nat) : List Char := (l.drop a).take (b - a)

/-- The fenced-block branch of `_extract_json_object` (lines 149-154):
the DOTALL regex match takes the earliest opening fence, an optional
literal "json" tag, and the earliest closing fence; the lazy group with
surrounding whitespace-eaters yields the content between the fences
trimmed of whitespace. No match when no closing fence exists. -/
def fenceBody (text : List Char) : Option (List Char) :=
  match findSub fenceMarker text with
  | Option.none => Option.none
  | Option.some i =>
    match findSub fenceMarker
        (if ['j', 's', 'o', 'n'].isPrefixOf (text.drop (i + 3)) then
          (text.drop (i + 3)).drop 4
        else text.drop (i + 3)) with
    | Option.none => Option.none
    | Option.some j =>
      Option.some (pyStrip
        ((if ['j', 's', 'o', 'n'].isPrefixOf (text.drop (i + 3)) then
            (text.drop (i + 3)).drop 4
          else text.drop (i + 3)).take j))

/-- The brace-counting loop of `_extract_json_object`
(src/moltbot_scraper.py lines 161-204). `i` is the scan position,
`start` the current candidate's opening brace, `depth` the brace depth
(a Python int), `inString` and `escapeNext` the quoting state. When a
balanced candidate fails to parse, the scan restarts at the next '{'
with depth 0, carrying the quoting state, exactly as the source does. -/
def scanLoop (text : List Char) (fuel i start : Nat) (depth : Int)
    (inString escapeNext : Bool) : Option Json :=
  match fuel with
  | 0 => Option.none
  | Nat.succ fuel =>
    match text.get? i with
    | Option.none => Option.none
    | Option.some ch =>
      if escapeNext then scanLoop text fuel (i + 1) start depth inString false
      else if ch == '\\' then scanLoop text fuel (i + 1) start depth inString true
      else if ch == '"' then scanLoop text fuel (i + 1) start depth (!inString) escapeNext
      else if !inString && ch == '{' then
        scanLoop text fuel (i + 1) start (depth + 1) inString escapeNext
      else if !inString && ch == '}' then
        if depth - 1 == 0 then
          match jsonParse (slicePy text start (i + 1)) with
          | Option.some v => Option.some v
          | Option.none =>
            match findCharFrom '{' text (i + 1) with
            | Option.none => Option.none
            | Option.some s2 => scanLoop text fuel s2 s2 0 inString escapeNext
        else scanLoop text fuel (i + 1) start (depth - 1) inString escapeNext
      else scanLoop text fuel (i + 1) start depth inString escapeNext

/-- `_extract_json_object` (src/moltbot_scraper.py lines 143-204): the
fenced-block parse when it succeeds, otherwise the brace-counting scan
from the first '{'. -/
def extractJsonObject (text : List Char) : Option Json :=
  match (match fenceBody text with
    | Option.some body => jsonParse body
    | Option.none => Option.none) with
  | Option.some v => Option.some v
  | Option.none =>
    match findCharFrom '{' text 0 with
    | Option.none => Option.none
    | Option.some start => scanLoop text (text.length + 1) start start 0 false false

/-- A take of a drop is a contiguous span. -/
theorem dropTake_isInfixBase (l : List Char) (a n : Nat) :
    (l.drop a).take n <:+: l := by
  refine ⟨l.take a, (l.drop a).drop n, ?_⟩
  rw [List.append_assoc, List.take_append_drop, List.take_append_drop]

/-- `slicePy` yields a contiguous span. -/
theorem slicePy_isInfixBase (l : List Char) (a b : Nat) : slicePy l a b <:+: l :=
  dropTake_isInfixBase l a (b - a)

/-- Stripping whitespace yields a contiguous span. -/
theorem pyStrip_isInfixBase (s : List Char) : pyStrip s <:+: s := by
  obtain ⟨q, hq⟩ := (s.dropWhile isPySpace).reverse.dropWhile_suffix isPySpace
  obtain ⟨r, hr⟩ := s.dropWhile_suffix isPySpace
  refine ⟨r, q.reverse, ?_⟩
  have ht : s.dropWhile isPySpace = pyStrip s ++ q.reverse := by
    have h2 := congrArg List.reverse hq
    simp only [List.reverse_append, List.reverse_reverse] at h2
    exact h2.symm
  rw [List.append_assoc, ← ht, hr]

/-- Any body returned by the fence branch is a contiguous span of the
text. -/
theorem fenceBody_isInfixBase (text body : List Char) :
    fenceBody text = Option.some body → body <:+: text := by
  intro h
  unfold fenceBody at h
  split at h
  · cases h
  · rename_i i hfs
    split at h
    · cases h
    · rename_i j hfs2
      injection h with h
      subst h
      by_cases hj : (['j', 's', 'o', 'n'].isPrefixOf (text.drop (i + 3))) = true
      · rw [if_pos hj]
        refine (pyStrip_isInfixBase _).trans ?_
        rw [List.drop_drop]
        exact dropTake_isInfixBase text _ j
      · rw [if_neg hj]
        exact (pyStrip_isInfixBase _).trans (dropTake_isInfixBase text _ j)

/-- Soundness of the brace-counting scan: any value it returns was parsed
from a contiguous span of the text. -/
theorem scanLoop_sound (text : List Char) :
    ∀ (fuel i start : Nat) (depth : Int) (inString escapeNext : Bool) (v : Json),
      scanLoop text fuel i start depth inString escapeNext = Option.some v →
      ∃ s, s <:+: text ∧ jsonParse s = Option.some v := by
  intro fuel
  induction fuel with
  | zero =>
    intro i start depth inString escapeNext v h
    simp [scanLoop] at h
  | succ fuel ih =>
    intro i start depth inString escapeNext v h
    rw [scanLoop] at h
    cases hg : text.get? i with
    | none => rw [hg] at h; cases h
    | some ch =>
      rw [hg] at h
      simp only [] at h
      by_cases h1 : escapeNext
      · rw [if_pos h1] at h; exact ih _ _ _ _ _ _ h
      · rw [if_neg h1] at h
        by_cases h2 : ch == '\\'
        · rw [if_pos h2] at h; exact ih _ _ _ _ _ _ h
        · rw [if_neg h2] at h
          by_cases h3 : ch == '"'
          · rw [if_pos h3] at h; exact ih _ _ _ _ _ _ h
          · rw [if_neg h3] at h
            by_cases h4 : !inString && ch == '{'
            · rw [if_pos h4] at h; exact ih _ _ _ _ _ _ h
            · rw [if_neg h4] at h
              by_cases h5 : !inString && ch == '}'
              · rw [if_pos h5] at h
                by_cases h6 : depth - 1 == 0
                · rw [if_pos h6] at h
                  cases hp : jsonParse (slicePy text start (i + 1)) with
                  | some v2 =>
                    rw [hp] at h
                    cases h
                    exact ⟨slicePy text start (i + 1),
                      slicePy_isInfixBase text start (i + 1), hp⟩
                  | none =>
                    rw [hp] at h
                    cases hf : findCharFrom '{' text (i + 1) with
                    | none => rw [hf] at h; cases h
                    | some s2 => rw [hf] at h; exact ih _ _ _ _ _ _ h
                · rw [if_neg h6] at h; exact ih _ _ _ _ _ _ h
              · rw [if_neg h5] at h; exact ih _ _ _ _ _ _ h

/-- The probe input from the spec: free-form noise, a malformed brace
fragment, then a valid object. -/
def exampleNoise : List Char :=
  ['n', 'o', 'i', 's', 'e', ' ', '{', ' ', 'n', 'o', 't', ' ', 'j', 's', 'o', 'n',
   ' ', '}', ' ', '{', '"', 'a', '"', ':', '1', '}']

/-- An input whose text before the first brace opens a quote: the scanner
then treats the valid object later in the text as string content and
never parses it. -/
def hiddenObject : List Char :=
  ['"', '{', '"', ' ', '{', '"', 'a', '"', ':', '1', '}']

/-- C2 counterexample: on `hiddenObject` the extractor returns none even
though the parseable object `{"a":1}` occurs verbatim in the text: the
quote preceding the first brace flips the scanner's string state, so "no
parseable object exists anywhere in the text" is not equivalent to a none
result. -/
theorem extract_json_completeness_cex :
    extractJsonObject hiddenObject = Option.none ∧
    hiddenObject = ['"', '{', '"', ' '] ++ hiddenObject.drop 4 ∧
    jsonParse (hiddenObject.drop 4) =
      Option.some (Json.obj [(['a'], Json.num 1)]) :=
  ⟨rfl, rfl, rfl⟩

/-- C2 (amended): the extractor prefers a parseable fenced block; any
value it returns was parsed from a contiguous span of the text (so a
returned object always exists in the text, though the converse fails);
and on the probe input it returns the object with field "a" mapped
to 1. -/
theorem extract_json_spec :
    (∀ (text : List Char) (v : Json), extractJsonObject text = Option.some v →
      ∃ s, s <:+: text ∧ jsonParse s = Option.some v) ∧
    (∀ (text body : List Char) (v : Json), fenceBody text = Option.some body →
      jsonParse body = Option.some v → extractJsonObject text = Option.some v) ∧
    extractJsonObject exampleNoise = Option.some (Json.obj [(['a'], Json.num 1)]) := by
  refine ⟨?_, ?_, rfl⟩
  · intro text v h
    unfold extractJsonObject at h
    split at h
    · rename_i v2 heq
      injection h with h
      subst h
      split at heq
      · rename_i body hfb
        exact ⟨body, fenceBody_isInfixBase text body hfb, heq⟩
      · cases heq
    · rename_i heq
      split at h
      · cases h
      · rename_i start hfc
        exact scanLoop_sound text _ _ _ _ _ _ _ h
  · intro text body v hfb hjp
    unfold extractJsonObject
    rw [hfb]
    simp only [hjp]

/-- Witness for `extract_json_spec`: the soundness conjunct applied to
the probe input, and the fence conjunct applied to a concrete fenced
empty object. -/
theorem extract_json_spec_witness :
    (∃ s, s <:+: exampleNoise ∧
      jsonParse s = Option.some (Json.obj [(['a'], Json.num 1)])) ∧
    extractJsonObject [btick, btick, btick, '{', '}', btick, btick, btick] =
      Option.some (Json.obj []) :=
  ⟨extract_json_spec.1 exampleNoise (Json.obj [(['a'], Json.num 1)]) rfl,
    extract_json_spec.2.1 [btick, btick, btick, '{', '}', btick, btick, btick]
      ['{', '}'] (Json.obj []) rfl rfl⟩

/-- Terminal outcome observed by a caller of `MoltBotClient.request`: the
future's result on an `ok` response, the future's exception carrying the
remote error otherwise, or the `TimeoutError` raised by `asyncio.wait_for`
— which names the method and the timeout bound
(src/moltbot_client.py line 196). -/
inductive RespOutcome where
  | success (payload : Nat)
  | failure (err : Nat)
  | timedOut (method : List Char) (bound : Nat)
deriving DecidableEq

/-- The request-correlation state of `MoltBotClient`: the `_request_id`
counter, the key set of `_pending_requests`, and a log of resolutions
(each entry is a future that has been resolved, most recent first).
Identifiers are modelled as the naturals produced by `_next_id`; the
`str()` conversion on the wire is injective so equality of keys is
preserved. -/
structure PendingState where
  nextId : Nat
  pending : List Nat
  resolved : List (Nat × RespOutcome)
deriving DecidableEq

/-- Events that mutate the correlation state:
`send` is `request`'s id allocation plus registration (lines 179-188);
`recvRes` is the `res` branch of `_receive_loop` (lines 148-156);
`timeoutFire` is the `asyncio.TimeoutError` handler of `request`
(lines 194-196), which pops the pending entry and raises. -/
inductive WireStep where
  | send
  | recvRes (id : Nat) (ok : Bool) (payload err : Nat)
  | timeoutFire (id : Nat) (method : List Char) (bound : Nat)

/-- One step of the correlation state machine. A `recvRes` whose id is
not registered is a no-op (`if req_id in self._pending_requests`); a
matching one pops the entry and resolves the future once, with the
payload on `ok` and the remote error otherwise. A `timeoutFire` only
fires while the caller still waits (its future unresolved, hence its id
still pending — `asyncio.wait_for` returns the result otherwise); it
pops the entry and records the `TimeoutError`. -/
def applyStep (st : PendingState) : WireStep → PendingState
  | WireStep.send =>
    { st with nextId := st.nextId + 1, pending := (st.nextId + 1) :: st.pending }
  | WireStep.recvRes id ok payload err =>
    if id ∈ st.pending then
      { st with pending := st.pending.erase id,
                resolved :=
                  (id, if ok then RespOutcome.success payload
                    else RespOutcome.failure err) :: st.resolved }
    else st
  | WireStep.timeoutFire id method bound =>
    if id ∈ st.pending then
      { st with pending := st.pending.erase id,
                resolved := (id, RespOutcome.timedOut method bound) :: st.resolved }
    else st

/-- Run a sequence of steps. -/
def runSteps (st : PendingState) : List WireStep → PendingState
  | [] => st
  | s :: rest => runSteps (applyStep st s) rest

/-- The state of a fresh connection. -/
def initState : PendingState := { nextId := 0, pending := [], resolved := [] }

/-- Correlation-table invariant: pending ids are distinct, resolved ids
are distinct, no id is both pending and resolved, and all ids are
bounded by the counter (so freshly allocated ids are new). -/
def StateInv (st : PendingState) : Prop :=
  st.pending.Nodup ∧
  (st.resolved.map Prod.fst).Nodup ∧
  (∀ id ∈ st.pending, id ∉ st.resolved.map Prod.fst) ∧
  (∀ id ∈ st.pending, id ≤ st.nextId) ∧
  (∀ id ∈ st.resolved.map Prod.fst, id ≤ st.nextId)

/-- Each step preserves the correlation-table invariant. -/
theorem stateInv_apply (st : PendingState) (s : WireStep) (h : StateInv st) :
    StateInv (applyStep st s) := by
  obtain ⟨h1, h2, h3, h4, h5⟩ := h
  cases s with
  | send =>
    refine ⟨?_, h2, ?_, ?_, ?_⟩
    · exact List.nodup_cons.mpr ⟨fun hmem => by have := h4 _ hmem; omega, h1⟩
    · intro id hid
      rcases List.mem_cons.mp hid with rfl | hid
      · exact fun hmem => by have := h5 _ hmem; omega
      · exact h3 id hid
    · intro id hid
      rcases List.mem_cons.mp hid with rfl | hid
      · simp [applyStep]
      · simp only [applyStep]
        exact Nat.le_succ_of_le (h4 id hid)
    · intro id hid
      simp only [applyStep]
      exact Nat.le_succ_of_le (h5 id hid)
  | recvRes id ok payload err =>
    simp only [applyStep]
    by_cases hmem : id ∈ st.pending
    · rw [if_pos hmem]
      refine ⟨h1.erase id, ?_, ?_, ?_, ?_⟩
      · exact List.nodup_cons.mpr ⟨h3 id hmem, h2⟩
      · intro id2 hid2
        have hid2' := List.mem_of_mem_erase hid2
        have hne : id2 ≠ id := ((h1.mem_erase_iff).mp hid2).1
        intro hres
        simp only [List.map_cons] at hres
        rcases List.mem_cons.mp hres with h | h
        · exact hne h
        · exact h3 id2 hid2' h
      · intro id2 hid2
        exact h4 id2 (List.mem_of_mem_erase hid2)
      · intro id2 hid2
        simp only [List.map_cons] at hid2
        rcases List.mem_cons.mp hid2 with h | h
        · rw [h]
          exact h4 _ hmem
        · exact h5 id2 h
    · rw [if_neg hmem]
      exact ⟨h1, h2, h3, h4, h5⟩
  | timeoutFire id method bound =>
    simp only [applyStep]
    by_cases hmem : id ∈ st.pending
    · rw [if_pos hmem]
      refine ⟨h1.erase id, ?_, ?_, ?_, ?_⟩
      · exact List.nodup_cons.mpr ⟨h3 id hmem, h2⟩
      · intro id2 hid2
        have hid2' := List.mem_of_mem_erase hid2
        have hne : id2 ≠ id := ((h1.mem_erase_iff).mp hid2).1
        intro hres
        simp only [List.map_cons] at hres
        rcases List.mem_cons.mp hres with h | h
        · exact hne h
        · exact h3 id2 hid2' h
      · intro id2 hid2
        exact h4 id2 (List.mem_of_mem_erase hid2)
      · intro id2 hid2
        simp only [List.map_cons] at hid2
        rcases List.mem_cons.mp hid2 with h | h
        · rw [h]
          exact h4 _ hmem
        · exact h5 id2 h
    · rw [if_neg hmem]
      exact ⟨h1, h2, h3, h4, h5⟩

/-- The invariant holds in every reachable state. -/
theorem stateInv_run (steps : List WireStep) :
    ∀ st : PendingState, StateInv st → StateInv (runSteps st steps) := by
  induction steps with
  | nil => intro st h; exact h
  | cons s rest ih =>
    intro st h
    exact ih (applyStep st s) (stateInv_apply st s h)

/-- The initial state satisfies the invariant. -/
theorem stateInv_init : StateInv initState := by
  refine ⟨List.nodup_nil, List.nodup_nil, ?_, ?_, ?_⟩ <;> simp [initState]

/-- C1: in every reachable correlation state, (a) every pending entry is
resolved at most once over the whole history; (b) a response whose id
matches no pending entry changes nothing; (c) a response matching a
pending entry resolves exactly that entry — with the payload on `ok`,
with the remote error otherwise — and deregisters it; (d) a timeout
records a `TimeoutError` carrying the method and the bound, deregisters
the entry, and any later response with that identifier is a no-op. -/
theorem request_correlation_spec (pre : List WireStep) :
    (((runSteps initState pre).resolved.map Prod.fst).Nodup) ∧
    (∀ (id payload err : Nat) (ok : Bool),
      id ∉ (runSteps initState pre).pending →
      applyStep (runSteps initState pre) (WireStep.recvRes id ok payload err) =
        runSteps initState pre) ∧
    (∀ (id payload err : Nat) (ok : Bool),
      id ∈ (runSteps initState pre).pending →
      (applyStep (runSteps initState pre) (WireStep.recvRes id ok payload err)).resolved =
        (id, if ok then RespOutcome.success payload else RespOutcome.failure err) ::
          (runSteps initState pre).resolved ∧
      id ∉ (applyStep (runSteps initState pre)
        (WireStep.recvRes id ok payload err)).pending) ∧
    (∀ (id bound payload err : Nat) (method : List Char) (ok : Bool),
      id ∈ (runSteps initState pre).pending →
      (applyStep (runSteps initState pre) (WireStep.timeoutFire id method bound)).resolved =
        (id, RespOutcome.timedOut method bound) :: (runSteps initState pre).resolved ∧
      applyStep (applyStep (runSteps initState pre) (WireStep.timeoutFire id method bound))
          (WireStep.recvRes id ok payload err) =
        applyStep (runSteps initState pre) (WireStep.timeoutFire id method bound)) := by
  have hinv := stateInv_run pre initState stateInv_init
  obtain ⟨h1, h2, h3, h4, h5⟩ := hinv
  refine ⟨h2, ?_, ?_, ?_⟩
  · intro id payload err ok hid
    simp only [applyStep]
    rw [if_neg hid]
  · intro id payload err ok hid
    simp only [applyStep]
    rw [if_pos hid]
    refine ⟨rfl, ?_⟩
    intro hmem
    exact (((h1.mem_erase_iff).mp hmem).1) rfl
  · intro id bound payload err method ok hid
    have hout : id ∉ ((runSteps initState pre).pending.erase id) := by
      intro hmem
      exact (((h1.mem_erase_iff).mp hmem).1) rfl
    constructor
    · simp only [applyStep]
      rw [if_pos hid]
    · simp only [applyStep]
      rw [if_pos hid]
      rw [if_neg (by simpa using hout)]

/-- Witness for `request_correlation_spec`: one request is sent, then a
matching response resolves it with its payload; independently, after a
timeout on that id a late matching response is dropped. -/
theorem request_correlation_spec_witness :
    (applyStep (runSteps initState [WireStep.send]) (WireStep.recvRes 1 true 7 9)).resolved =
      [(1, RespOutcome.success 7)] ∧
    applyStep (applyStep (runSteps initState [WireStep.send])
        (WireStep.timeoutFire 1 ['h'] 30)) (WireStep.recvRes 1 true 7 9) =
      applyStep (runSteps initState [WireStep.send]) (WireStep.timeoutFire 1 ['h'] 30) := by
  constructor
  · exact (((request_correlation_spec [WireStep.send]).2.2.1 1 7 9 true
      (by decide)).1).trans rfl
  · exact ((request_correlation_spec [WireStep.send]).2.2.2 1 30 7 9 ['h'] true
      (by decide)).2

/-- Error taxonomy of `MoltBotClient.request`'s send path. -/
inductive ClientErr where
  | connectionError (msg : List Char)
deriving DecidableEq

/-- The message of the not-connected guard
(src/moltbot_client.py line 177). -/
def notConnectedMsg : List Char := "Not connected to MoltBot Gateway".toList

/-- Connection-facing state of `MoltBotClient`: the `connected` flag, the
`_request_id` counter and the keys of `_pending_requests`. -/
structure ClientConn where
  connected : Bool
  requestId : Nat
  pendingIds : List Nat
deriving DecidableEq

/-- The send phase of `MoltBotClient.request` (src/moltbot_client.py
lines 174-190): the connected guard, then id allocation, registration of
the pending future, and the single wire message `(id, method)` handed to
the transport. Returns the state after the phase, the messages sent, and
the error raised (if any). -/
def requestSendPhase (st : ClientConn) (method : List Char) :
    ClientConn × List (Nat × List Char) × Option ClientErr :=
  if !st.connected then
    (st, [], Option.some (ClientErr.connectionError notConnectedMsg))
  else
    ({ st with requestId := st.requestId + 1,
               pendingIds := (st.requestId + 1) :: st.pendingIds },
      [(st.requestId + 1, method)], Option.none)

/-- C10: calling `request` while not connected raises `ConnectionError`
("Not connected to MoltBot Gateway") before any identifier is allocated,
any pending entry is registered, or anything is sent: the returned state
is the input state and the sent-message list is empty. -/
theorem request_not_connected_spec (st : ClientConn) (method : List Char)
    (h : st.connected = false) :
    requestSendPhase st method =
      (st, [], Option.some (ClientErr.connectionError notConnectedMsg)) := by
  unfold requestSendPhase
  rw [h]
  rfl

/-- Witness for `request_not_connected_spec` on a concrete disconnected
state. -/
theorem request_not_connected_spec_witness :
    requestSendPhase { connected := false, requestId := 5, pendingIds := [3] } ['m'] =
      ({ connected := false, requestId := 5, pendingIds := [3] }, [],
        Option.some (ClientErr.connectionError notConnectedMsg)) :=
  request_not_connected_spec
    { connected := false, requestId := 5, pendingIds := [3] } ['m'] rfl

/-- Result dictionary of `MoltBotClient.invoke_agent`. -/
structure AgentResult where
  content : List Char
  runId : Option Nat
  status : Option (List Char) := Option.none
  error : Option (List Char) := Option.none
deriving DecidableEq

/-- The partial-content result `{"content": "".join(parts), "runId": run_id}`. -/
def partialContentResult (streamedParts : List (List Char)) (runId : Option Nat) :
    AgentResult :=
  { content := streamedParts.flatten, runId := runId }

/-- The timeout result `{"content": "", "status": "timeout", "runId": run_id}`. -/
def timeoutStatusResult (runId : Option Nat) : AgentResult :=
  { content := [], runId := runId, status := Option.some ("timeout".toList) }

/-- The `asyncio.TimeoutError` handler of `invoke_agent`
(src/moltbot_client.py lines 330-334): return the concatenated streamed
fragments if any were accumulated, else a timeout-status result carrying
the run id. Modelled in `Except` to make "the timeout is not re-raised"
explicit: both branches are `Except.ok`. -/
def invokeAgentOnTimeout (streamedParts : List (List Char)) (runId : Option Nat) :
    Except (List Char) AgentResult :=
  if !streamedParts.isEmpty then
    Except.ok (partialContentResult streamedParts runId)
  else
    Except.ok (timeoutStatusResult runId)

/-- C7: on completion-wait timeout, `invoke_agent` returns normally (no
exception): the concatenation of all streamed fragments when any were
received, otherwise a result with status "timeout" carrying the run
identifier. -/
theorem invoke_agent_timeout_spec (streamedParts : List (List Char))
    (runId : Option Nat) :
    (∃ r, invokeAgentOnTimeout streamedParts runId = Except.ok r) ∧
    (streamedParts ≠ [] →
      invokeAgentOnTimeout streamedParts runId =
        Except.ok (partialContentResult streamedParts runId) ∧
      (partialContentResult streamedParts runId).content = streamedParts.flatten ∧
      (partialContentResult streamedParts runId).runId = runId) ∧
    (streamedParts = [] →
      invokeAgentOnTimeout streamedParts runId =
        Except.ok (timeoutStatusResult runId) ∧
      (timeoutStatusResult runId).status = Option.some ("timeout".toList) ∧
      (timeoutStatusResult runId).runId = runId) := by
  refine ⟨?_, ?_, ?_⟩
  · unfold invokeAgentOnTimeout
    split
    · exact ⟨_, rfl⟩
    · exact ⟨_, rfl⟩
  · intro h
    refine ⟨?_, rfl, rfl⟩
    unfold invokeAgentOnTimeout
    rw [if_pos]
    simpa using h
  · intro h
    subst h
    exact ⟨rfl, rfl, rfl⟩

/-- Witness for `invoke_agent_timeout_spec`: two fragments concatenate;
an empty stream yields the timeout-status result. -/
theorem invoke_agent_timeout_spec_witness :
    invokeAgentOnTimeout [['a'], ['b']] (Option.some 4) =
      Except.ok (partialContentResult [['a'], ['b']] (Option.some 4)) ∧
    (partialContentResult [['a'], ['b']] (Option.some 4)).content = ['a', 'b'] ∧
    invokeAgentOnTimeout [] (Option.some 4) =
      Except.ok (timeoutStatusResult (Option.some 4)) :=
  ⟨((invoke_agent_timeout_spec [['a'], ['b']] (Option.some 4)).2.1 (by decide)).1,
    rfl,
    ((invoke_agent_timeout_spec [] (Option.some 4)).2.2 rfl).1⟩

/-- The `pagination_map.get(key, UNKNOWN)` lookup of
`_parse_agent_response` (src/moltbot_scraper.py lines 433-443). -/
def paginationOf (s : List Char) : PaginationType :=
  if s = "next_page_link".toList then PaginationType.nextPage
  else if s = "infinite_scroll".toList then PaginationType.infiniteScroll
  else if s = "load_more_button".toList then PaginationType.loadMore
  else if s = "numbered_pages".toList then PaginationType.numbered
  else if s = "none".toList then PaginationType.none
  else PaginationType.unknown

/-- The `security_map` lookup (src/moltbot_scraper.py lines 446-452):
some known issue, or none when the string is not a key of the map. -/
def securityOf (s : List Char) : Option SecurityIssue :=
  if s = "cloudflare".toList then Option.some SecurityIssue.cloudflare
  else if s = "captcha".toList then Option.some SecurityIssue.captcha
  else if s = "bot_protection".toList then Option.some SecurityIssue.botProtection
  else if s = "blocked".toList then Option.some SecurityIssue.blocked
  else if s = "timeout".toList then Option.some SecurityIssue.timeout
  else Option.none

/-- The security-issue comprehension of `_parse_agent_response`
(lines 453-457): `[security_map.get(s, NONE) for s in xs if s in
security_map]` — the guard makes the `NONE` default dead, so unknown
strings are filtered out, which is exactly `filterMap`. -/
def securityIssuesOf (xs : List (List Char)) : List SecurityIssue :=
  xs.filterMap securityOf

/-- The known pagination-type strings. -/
def knownPaginationKeys : List (List Char) :=
  ["next_page_link".toList, "infinite_scroll".toList, "load_more_button".toList,
    "numbered_pages".toList, "none".toList]

/-- C8 counterexample: the unknown security string "weird" is dropped
from the parsed list instead of being mapped to the `NONE` sentinel —
the output for ["captcha", "weird"] has one element, not two, and
contains no sentinel; so unknown security-issue strings are not "mapped
to the sentinel" as the claim states (the pagination half of the claim
does hold). -/
theorem enum_sentinel_cex :
    securityIssuesOf ["captcha".toList, "weird".toList] = [SecurityIssue.captcha] ∧
    (securityIssuesOf ["captcha".toList, "weird".toList]).length ≠ 2 ∧
    SecurityIssue.none ∉ securityIssuesOf ["captcha".toList, "weird".toList] ∧
    paginationOf ("weird".toList) = PaginationType.unknown := by
  decide

/-- C8 (amended): an unknown pagination string degrades to the `unknown`
sentinel, and an unknown security-issue string is silently dropped from
the parsed list; both lookups are total, so neither can fail the
record. -/
theorem enum_noise_spec (s : List Char) (pre post : List (List Char)) :
    (s ∉ knownPaginationKeys → paginationOf s = PaginationType.unknown) ∧
    (securityOf s = Option.none →
      securityIssuesOf (pre ++ s :: post) =
        securityIssuesOf pre ++ securityIssuesOf post) := by
  constructor
  · intro h
    unfold paginationOf
    rw [if_neg (fun heq => h (by rw [heq]; decide)),
      if_neg (fun heq => h (by rw [heq]; decide)),
      if_neg (fun heq => h (by rw [heq]; decide)),
      if_neg (fun heq => h (by rw [heq]; decide)),
      if_neg (fun heq => h (by rw [heq]; decide))]
  · intro h
    unfold securityIssuesOf
    rw [List.filterMap_append, List.filterMap_cons, h]

/-- Witness for `enum_noise_spec` at the unknown string "weird". -/
theorem enum_noise_spec_witness :
    paginationOf ("weird".toList) = PaginationType.unknown ∧
    securityIssuesOf (["captcha".toList] ++ "weird".toList :: ["blocked".toList]) =
      securityIssuesOf ["captcha".toList] ++ securityIssuesOf ["blocked".toList] :=
  ⟨(enum_noise_spec ("weird".toList) [] []).1 (by decide),
    (enum_noise_spec ("weird".toList) ["captcha".toList] ["blocked".toList]).2
      (by decide)⟩

/-- Outcome of one `analyze_site` call as seen by its exception boundary
(src/moltbot_scraper.py lines 286-329): the try-block's analysis, or an
escaped `TimeoutError`, or any other exception with its message. -/
inductive AnalysisOutcome where
  | ok (a : SiteAnalysis)
  | timeoutErr
  | exc (msg : List Char)

/-- The exception boundary of `analyze_site` (lines 317-329): a timeout
degrades to a record with the fixed error message and a `TIMEOUT`
indicator; any other exception degrades to a record with the exception
text; nothing propagates. -/
def analyzeSiteSafe (url domain : List Char) : AnalysisOutcome → SiteAnalysis
  | AnalysisOutcome.ok a => a
  | AnalysisOutcome.timeoutErr =>
    { url := url, domain := domain,
      error_message := Option.some ("MoltBot agent timeout".toList),
      security_issues := [SecurityIssue.timeout] }
  | AnalysisOutcome.exc msg =>
    { url := url, domain := domain, error_message := Option.some msg }

/-- Index-wise runner underlying `analyze_sites`. -/
def analyzeSitesGo (oracle : Nat → AnalysisOutcome) :
    Nat → List (List Char × List Char) → List SiteAnalysis
  | _, [] => []
  | i, p :: rest => analyzeSiteSafe p.1 p.2 (oracle i) :: analyzeSitesGo oracle (i + 1) rest

/-- `MoltBotScraper.analyze_sites` (src/moltbot_scraper.py lines
492-502): `asyncio.gather` returns one result per input coroutine in
input order, whatever the completion order; each per-target outcome is
supplied by the oracle at the target's index. -/
def analyzeSites (targets : List (List Char × List Char))
    (oracle : Nat → AnalysisOutcome) : List SiteAnalysis :=
  analyzeSitesGo oracle 0 targets

/-- `analyzeSitesGo` resolves index `i` to the target at `i` with the
oracle shifted by the start index. -/
theorem analyzeSitesGo_get (oracle : Nat → AnalysisOutcome) :
    ∀ (ts : List (List Char × List Char)) (n i : Nat),
      (analyzeSitesGo oracle n ts).get? i =
        (ts.get? i).map (fun p => analyzeSiteSafe p.1 p.2 (oracle (n + i))) := by
  intro ts
  induction ts with
  | nil => intro n i; simp [analyzeSitesGo]
  | cons p rest ih =>
    intro n i
    cases i with
    | zero => simp [analyzeSitesGo]
    | succ i =>
      have h := ih (n + 1) i
      simp only [analyzeSitesGo, List.get?_cons_succ, Nat.succ_add, Nat.add_succ] at h ⊢
      exact h

/-- `analyzeSitesGo` preserves length. -/
theorem analyzeSitesGo_length (oracle : Nat → AnalysisOutcome) :
    ∀ (ts : List (List Char × List Char)) (n : Nat),
      (analyzeSitesGo oracle n ts).length = ts.length := by
  intro ts
  induction ts with
  | nil => intro n; rfl
  | cons p rest ih => intro n; simp [analyzeSitesGo, ih (n + 1)]

/-- C6: bulk analysis over M targets returns exactly M results, the i-th
result coming from the i-th input target regardless of completion order,
and a target whose analysis fails (timeout or exception) yields a result
record with a non-empty error message without affecting any sibling. -/
theorem analyze_sites_spec (targets : List (List Char × List Char))
    (oracle : Nat → AnalysisOutcome) :
    (analyzeSites targets oracle).length = targets.length ∧
    (∀ (i : Nat) (u d : List Char), targets.get? i = Option.some (u, d) →
      (analyzeSites targets oracle).get? i =
        Option.some (analyzeSiteSafe u d (oracle i))) ∧
    (∀ (i : Nat) (u d msg : List Char), targets.get? i = Option.some (u, d) →
      (oracle i = AnalysisOutcome.timeoutErr ∨ oracle i = AnalysisOutcome.exc msg) →
      ∃ a, (analyzeSites targets oracle).get? i = Option.some a ∧
        a.error_message ≠ Option.none) := by
  refine ⟨analyzeSitesGo_length oracle targets 0, ?_, ?_⟩
  · intro i u d h
    rw [analyzeSites, analyzeSitesGo_get oracle targets 0 i, h]
    simp
  · intro i u d msg h hfail
    refine ⟨analyzeSiteSafe u d (oracle i), ?_, ?_⟩
    · rw [analyzeSites, analyzeSitesGo_get oracle targets 0 i, h]
      simp
    · rcases hfail with h2 | h2 <;> rw [h2] <;> simp [analyzeSiteSafe]

/-- Witness for `analyze_sites_spec`: a two-target batch where the
second target's analysis raises; it degrades to an error record while
the first target is untouched. -/
theorem analyze_sites_spec_witness :
    (analyzeSites [( ['a'], ['a']), (['b'], ['b'])]
      (fun i => if i = 1 then AnalysisOutcome.exc ['x'] else
        AnalysisOutcome.ok { url := ['a'] })).length = 2 ∧
    (∃ a, (analyzeSites [( ['a'], ['a']), (['b'], ['b'])]
        (fun i => if i = 1 then AnalysisOutcome.exc ['x'] else
          AnalysisOutcome.ok { url := ['a'] })).get? 1 = Option.some a ∧
      a.error_message ≠ Option.none) := by
  constructor
  · exact (analyze_sites_spec _ _).1
  · exact (analyze_sites_spec [( ['a'], ['a']), (['b'], ['b'])]
      (fun i => if i = 1 then AnalysisOutcome.exc ['x'] else
        AnalysisOutcome.ok { url := ['a'] })).2.2 1 ['b'] ['b'] ['x'] rfl
      (Or.inr rfl)

/-- State of the bounded-concurrency gate of `analyze_sites`: targets
not yet admitted (in input order), targets currently holding the
`asyncio.Semaphore(concurrency)` slot (the whole `analyze_site` call,
hence the outstanding agent invocation, happens inside `async with
semaphore`), and finished targets. -/
structure GateState where
  queued : List Nat
  running : List Nat
  done : List Nat
deriving DecidableEq

/-- Scheduler events for the gate: `acquire` admits the next queued
target when a slot is free (semaphore acquire); `finish t` completes a
running target and releases its slot (semaphore release on exiting the
`async with` block). -/
inductive GateStep where
  | acquire
  | finish (t : Nat)

/-- One scheduler step of the semaphore gate with capacity `limit`. -/
def gateApply (limit : Nat) (st : GateState) : GateStep → GateState
  | GateStep.acquire =>
    match st.queued with
    | [] => st
    | t :: rest =>
      if st.running.length < limit then
        { queued := rest, running := t :: st.running, done := st.done }
      else st
  | GateStep.finish t =>
    if t ∈ st.running then
      { st with running := st.running.erase t, done := t :: st.done }
    else st

/-- Run a sequence of scheduler steps. -/
def gateRun (limit : Nat) (st : GateState) : List GateStep → GateState
  | [] => st
  | s :: rest => gateRun limit (gateApply limit st s) rest

/-- Initial gate state for a batch of targets. -/
def gateInit (targets : List Nat) : GateState :=
  { queued := targets, running := [], done := [] }

/-- A step never grows `running` beyond the limit. -/
theorem gateApply_le (limit : Nat) (st : GateState) (s : GateStep)
    (h : st.running.length ≤ limit) :
    (gateApply limit st s).running.length ≤ limit := by
  cases s with
  | acquire =>
    simp only [gateApply]
    split
    · exact h
    · split
      · rename_i hr
        simp only [List.length_cons]
        omega
      · exact h
  | finish t =>
    simp only [gateApply]
    split
    · exact le_trans (List.Sublist.length_le (List.erase_sublist t st.running)) h
    · exact h

/-- C9: with semaphore capacity `limit`, along every scheduler
interleaving of a batch no more than `limit` targets are ever running
(holding an outstanding agent invocation) simultaneously; and admission
is immediate, not batched: in any state with a free slot and a non-empty
queue, the acquire step admits a queued target at once. -/
theorem bounded_concurrency_spec (limit : Nat) (targets : List Nat)
    (steps : List GateStep) :
    (gateRun limit (gateInit targets) steps).running.length ≤ limit ∧
    (∀ st : GateState, st.running.length < limit → st.queued ≠ [] →
      (gateApply limit st GateStep.acquire).running.length =
        st.running.length + 1 ∧
      (gateApply limit st GateStep.acquire).queued.length =
        st.queued.length - 1) := by
  constructor
  · have hgen : ∀ (ss : List GateStep) (st : GateState),
        st.running.length ≤ limit →
        (gateRun limit st ss).running.length ≤ limit := by
      intro ss
      induction ss with
      | nil => intro st h; exact h
      | cons s rest ih =>
        intro st h
        exact ih (gateApply limit st s) (gateApply_le limit st s h)
    exact hgen steps (gateInit targets) (by simp [gateInit])
  · intro st hfree hq
    simp only [gateApply]
    split
    · rename_i heq
      exact absurd heq hq
    · rename_i t rest heq
      rw [if_pos hfree]
      simp [heq]

/-- Witness for `bounded_concurrency_spec`: capacity 2 over three
targets after two admissions; a third target is queued and a slot is
free after one finish. -/
theorem bounded_concurrency_spec_witness :
    (gateRun 2 (gateInit [1, 2, 3])
      [GateStep.acquire, GateStep.acquire, GateStep.acquire,
        GateStep.finish 1]).running.length ≤ 2 ∧
    (gateApply 2 { queued := [3], running := [2], done := [1] }
        GateStep.acquire).running.length = 2 := by
  constructor
  · exact (bounded_concurrency_spec 2 [1, 2, 3]
      [GateStep.acquire, GateStep.acquire, GateStep.acquire, GateStep.finish 1]).1
  · exact ((bounded_concurrency_spec 2 [] []).2
      { queued := [3], running := [2], done := [1] } (by decide) (by decide)).1.trans rfl

end Moltbot
